import Mathlib

/-!
# RandomDirectionGraph (src/randomGraph.js)

A shallow embedding of the motion and heading engine of the class
RandomDirectionGraph. JavaScript numbers are modelled by the elements of a
linearly ordered field (the rationals for evaluation, the reals where the
trigonometric functions are needed). Every reading of Date.now() and every
draw of Math.random() is an explicit argument of the operation that makes it.
-/

namespace RandomGraph

/-- One element of this.data: the object literal pushed at lines 108-113 and 158-163. -/
structure Point (α : Type) where
  x : α
  y : α
  value : α
  time : α
deriving DecidableEq

/-- The object held in this.currentDirection. -/
structure Direction (α : Type) where
  x : α
  y : α
deriving DecidableEq

/-- The members of the global Math object that the class calls besides max, min and random. -/
structure JSMath (α : Type) where
  PI : α
  cos : α → α
  sin : α → α

/-- The instance state. The fields duration and showControls are this.options,
width and height are this.canvas.width and this.canvas.height. The last five
fields are the part of the host page the class acts on: whether the canvas and
the controls are attached to the container, the handles of the frame callbacks
and of the interval timers the host currently holds, and the number of handles
the host has issued so far. -/
structure RandomDirectionGraph (α : Type) where
  duration : α
  showControls : Bool
  width : α
  height : α
  data : List (Point α)
  currentDirection : Direction α
  lastDirectionChange : α
  directionChangeInterval : α
  animationId : Option ℕ
  hueShift : ℕ
  canvasAttached : Bool
  controlsAttached : Bool
  frameRequests : List ℕ
  intervalTimers : List ℕ
  handles : ℕ

variable {α : Type} [LinearOrderedField α]

set_option linter.unusedSectionVars false

/-- Lines 103-115. The loop reads the clock once per iteration: clock i is the
reading of iteration i. -/
def initializeData (s : RandomDirectionGraph α) (clock : ℕ → α) : RandomDirectionGraph α :=
  let centerX := s.width / 2
  let centerY := s.height / 2
  { s with
    data := s.data ++ List.map
      (fun i => ({ x := centerX, y := centerY, value := 50, time := clock i - (i : α) * 50 } : Point α))
      (List.range 100) }

/-- Lines 117-133. The argument now is the reading of Date.now(), r1 and r2 are
the two draws of Math.random() made when the heading is re-rolled. -/
def changeDirection (M : JSMath α) (s : RandomDirectionGraph α) (now r1 r2 : α) :
    RandomDirectionGraph α :=
  if now - s.lastDirectionChange > s.directionChangeInterval then
    let angle := r1 * M.PI * 2
    { s with
      currentDirection := { x := M.cos angle, y := M.sin angle }
      lastDirectionChange := now
      directionChangeInterval := 500 + r2 * 2500 }
  else s

/-- Lines 135-168. The arguments tPush and tCut are the readings of Date.now() at
line 162 and at line 166. On an empty buffer lastPoint is undefined and reading
lastPoint.x throws: the result is none. -/
def updateValue (s : RandomDirectionGraph α) (value tPush tCut : α) :
    Option (RandomDirectionGraph α) :=
  match s.data.getLast? with
  | none => none
  | some lastPoint =>
    let speed := value / 50
    let newX := lastPoint.x + s.currentDirection.x * speed
    let newY := lastPoint.y + s.currentDirection.y * speed
    let bouncedX : Bool := decide (newX ≤ 0 ∨ newX ≥ s.width)
    let bouncedY : Bool := decide (newY ≤ 0 ∨ newY ≥ s.height)
    let dirX := if bouncedX then s.currentDirection.x * -1 else s.currentDirection.x
    let dirY := if bouncedY then s.currentDirection.y * -1 else s.currentDirection.y
    let bounced := bouncedX || bouncedY
    let interval := if bounced then 200 else s.directionChangeInterval
    let pushed := s.data ++
      [({ x := max 0 (min s.width newX), y := max 0 (min s.height newY),
          value := value, time := tPush } : Point α)]
    let cutoffTime := tCut - s.duration
    some { s with
      currentDirection := { x := dirX, y := dirY }
      directionChangeInterval := interval
      data := pushed.filter (fun point => decide (point.time ≥ cutoffTime)) }

/-- Lines 98-101. The arguments are window.innerWidth and window.innerHeight. -/
def resizeCanvas (s : RandomDirectionGraph α) (innerWidth innerHeight : α) :
    RandomDirectionGraph α :=
  { s with width := innerWidth, height := innerHeight }

/-- Lines 38-55: the canvas is appended to the container and sized. -/
def createCanvas (s : RandomDirectionGraph α) (innerWidth innerHeight : α) :
    RandomDirectionGraph α :=
  resizeCanvas { s with canvasAttached := true } innerWidth innerHeight

/-- Lines 57-96: the controls are appended to the container. -/
def createControls (s : RandomDirectionGraph α) : RandomDirectionGraph α :=
  { s with controlsAttached := true }

/-- Lines 170-234, as far as the instance state goes: the strokes, fills and
particles only paint on the canvas, the hue phase is the one field assigned. -/
def draw (s : RandomDirectionGraph α) : RandomDirectionGraph α :=
  if s.data.length < 2 then s
  else { s with hueShift := (s.hueShift + 1) % 360 }

/-- Lines 262-265. requestAnimationFrame hands out a fresh non-zero handle and
the host keeps the callback under it. -/
def animate (s : RandomDirectionGraph α) : RandomDirectionGraph α :=
  let s1 := draw s
  let h := s1.handles + 1
  { s1 with animationId := some h, frameRequests := h :: s1.frameRequests, handles := h }

/-- Lines 26-36. The handle returned by setInterval at line 35 is not stored in
any field of the instance; the host keeps the timer under it. -/
def init (s : RandomDirectionGraph α) (innerWidth innerHeight : α) (clock : ℕ → α) :
    RandomDirectionGraph α :=
  let s1 := createCanvas s innerWidth innerHeight
  let s2 := if s1.showControls then createControls s1 else s1
  let s3 := initializeData s2 clock
  let s4 := animate s3
  let t := s4.handles + 1
  { s4 with intervalTimers := t :: s4.intervalTimers, handles := t }

/-- Lines 2-24. The arguments duration and showControls are the options after
the defaults are merged, handles is the number of handles the host has issued
before, now is Date.now() at line 18, r is Math.random() at line 19 and clock
gives the readings made by initializeData. -/
def construct (duration : α) (showControls : Bool) (innerWidth innerHeight : α) (handles : ℕ)
    (now r : α) (clock : ℕ → α) : RandomDirectionGraph α :=
  init
    { duration := duration, showControls := showControls, width := 0, height := 0,
      data := [], currentDirection := { x := 1, y := 0 },
      lastDirectionChange := now, directionChangeInterval := 1000 + r * 2000,
      animationId := none, hueShift := 0,
      canvasAttached := false, controlsAttached := false,
      frameRequests := [], intervalTimers := [], handles := handles }
    innerWidth innerHeight clock

/-- Lines 267-277. cancelAnimationFrame drops the callback kept under the stored
handle; a null or zero animationId is falsy. this.canvas exists once init has
run, this.controls exists when the controls were created. -/
def destroy (s : RandomDirectionGraph α) : RandomDirectionGraph α :=
  let s1 :=
    match s.animationId with
    | some h =>
      if h ≠ 0 then { s with frameRequests := s.frameRequests.filter (fun k => decide (k ≠ h)) }
      else s
    | none => s
  let s2 := { s1 with canvasAttached := false }
  if s2.showControls then { s2 with controlsAttached := false } else s2

/-- The host runs the frame callback it keeps under handle h, the arrow function
of line 264: a callback runs once and only while the host still holds it. -/
def frameTick (s : RandomDirectionGraph α) (h : ℕ) : RandomDirectionGraph α :=
  if h ∈ s.frameRequests then
    animate { s with frameRequests := s.frameRequests.filter (fun k => decide (k ≠ h)) }
  else s

/-- The host fires the interval timer it keeps under handle t, the arrow function
of line 35. -/
def timerTick (M : JSMath α) (s : RandomDirectionGraph α) (t : ℕ) (now r1 r2 : α) :
    RandomDirectionGraph α :=
  if t ∈ s.intervalTimers then changeDirection M s now r1 r2 else s

/-- A sequence of updateValue calls; each call is a pair of the value passed and
the clock reading of the call. The sequence stops at the first call that throws. -/
def updateValues (s : RandomDirectionGraph α) : List (α × α) → Option (RandomDirectionGraph α)
  | [] => some s
  | call :: rest =>
    match updateValue s call.1 call.2 call.2 with
    | none => none
    | some s1 => updateValues s1 rest

/-- The states an instance can be in: the constructed one and every state that
calls of changeDirection, updateValue, resizeCanvas, destroy and the frame
callback lead to from it. -/
inductive Reachable (M : JSMath α) : RandomDirectionGraph α → Prop
  | construct (duration : α) (showControls : Bool) (innerWidth innerHeight : α) (handles : ℕ)
      (now r : α) (clock : ℕ → α) :
      Reachable M (construct duration showControls innerWidth innerHeight handles now r clock)
  | changeDirection {s : RandomDirectionGraph α} (now r1 r2 : α) :
      Reachable M s → Reachable M (changeDirection M s now r1 r2)
  | updateValue {s s1 : RandomDirectionGraph α} (value tPush tCut : α) :
      Reachable M s → updateValue s value tPush tCut = some s1 → Reachable M s1
  | resizeCanvas {s : RandomDirectionGraph α} (innerWidth innerHeight : α) :
      Reachable M s → Reachable M (resizeCanvas s innerWidth innerHeight)
  | frameTick {s : RandomDirectionGraph α} (h : ℕ) :
      Reachable M s → Reachable M (frameTick s h)
  | destroy {s : RandomDirectionGraph α} :
      Reachable M s → Reachable M (destroy s)


/-- Chronological insertion order of a buffer: for all indices i < j the point at
index i is not newer than the point at index j. -/
def Chronological (l : List (Point α)) : Prop :=
  ∀ (i j : ℕ) (p q : Point α), i < j → l[i]? = some p → l[j]? = some q → p.time ≤ q.time

/-- The shape of the buffer after construction and calls of updateValue up to
clock reading tl: the first m of the seed points, followed by appended points
that are in chronological order, not newer than tl and not older than any seed. -/
def TrailInv (seeds : List (Point α)) (tl : α) (s : RandomDirectionGraph α) : Prop :=
  ∃ (m : ℕ) (app : List (Point α)),
    s.data = seeds.take m ++ app ∧
    app.Pairwise (fun a b => a.time ≤ b.time) ∧
    (∀ b ∈ app, b.time ≤ tl) ∧
    (∀ a ∈ seeds, ∀ b ∈ app, a.time ≤ b.time)

/-- The motion state of the scenario runs: a 800 x 600 viewport, the default
retention window, heading (1, 0), and the last buffered point at (x, 300). -/
def RightwardAt (x : α) (s : RandomDirectionGraph α) : Prop :=
  s.width = 800 ∧ s.height = 600 ∧ s.duration = 5000 ∧
  s.currentDirection = { x := 1, y := 0 } ∧
  ∃ p : Point α, s.data.getLast? = some p ∧ p.x = x ∧ p.y = 300

/-- A state with a one-point buffer in the middle of a 800 x 600 viewport, heading right. -/
def demo : RandomDirectionGraph α :=
  { duration := 5000, showControls := false, width := 800, height := 600,
    data := [{ x := 400, y := 300, value := 50, time := 0 }],
    currentDirection := { x := 1, y := 0 },
    lastDirectionChange := 0, directionChangeInterval := 1000,
    animationId := none, hueShift := 0,
    canvasAttached := true, controlsAttached := false,
    frameRequests := [], intervalTimers := [], handles := 0 }

/-- A state whose last point sits next to the top right corner of a 800 x 600
viewport, heading out of it: x = 799.5, y = 0.5, direction (3/5, -4/5). -/
def demoCorner : RandomDirectionGraph ℚ :=
  { duration := 5000, showControls := false, width := 800, height := 600,
    data := [{ x := 400, y := 300, value := 50, time := 0 },
             { x := 1599 / 2, y := 1 / 2, value := 50, time := 1 }],
    currentDirection := { x := 3 / 5, y := -4 / 5 },
    lastDirectionChange := 0, directionChangeInterval := 1000,
    animationId := none, hueShift := 0,
    canvasAttached := true, controlsAttached := false,
    frameRequests := [], intervalTimers := [], handles := 0 }

/-! ## updateValue -/

/-- The result of updateValue on a state whose last buffered point is known. -/
theorem updateValue_eq (s : RandomDirectionGraph α) (value tPush tCut : α) (lastPoint : Point α)
    (h : s.data.getLast? = some lastPoint) :
    updateValue s value tPush tCut = some { s with
      currentDirection :=
        { x := if lastPoint.x + s.currentDirection.x * (value / 50) ≤ 0 ∨
                  lastPoint.x + s.currentDirection.x * (value / 50) ≥ s.width
               then s.currentDirection.x * -1 else s.currentDirection.x,
          y := if lastPoint.y + s.currentDirection.y * (value / 50) ≤ 0 ∨
                  lastPoint.y + s.currentDirection.y * (value / 50) ≥ s.height
               then s.currentDirection.y * -1 else s.currentDirection.y }
      directionChangeInterval :=
        if (lastPoint.x + s.currentDirection.x * (value / 50) ≤ 0 ∨
            lastPoint.x + s.currentDirection.x * (value / 50) ≥ s.width) ∨
           (lastPoint.y + s.currentDirection.y * (value / 50) ≤ 0 ∨
            lastPoint.y + s.currentDirection.y * (value / 50) ≥ s.height)
        then 200 else s.directionChangeInterval
      data := (s.data ++
        [({ x := max 0 (min s.width (lastPoint.x + s.currentDirection.x * (value / 50))),
            y := max 0 (min s.height (lastPoint.y + s.currentDirection.y * (value / 50))),
            value := value, time := tPush } : Point α)]).filter
        (fun point => decide (point.time ≥ tCut - s.duration)) } := by
  simp only [updateValue, h, Bool.or_eq_true, decide_eq_true_eq]

/-- C1 (clamping). On a non-empty buffer and a viewport with width and height
at least 0, updateValue returns, and the point it appends (the clamped candidate,
carrying the value and the clock reading of the push) has 0 <= x <= width and
0 <= y <= height, whatever the candidate newX, newY was. -/
theorem updateValue_clamps (s : RandomDirectionGraph α) (value tPush tCut : α)
    (lastPoint : Point α) (newX newY : α)
    (hlast : s.data.getLast? = some lastPoint)
    (hX : newX = lastPoint.x + s.currentDirection.x * (value / 50))
    (hY : newY = lastPoint.y + s.currentDirection.y * (value / 50))
    (hw : 0 ≤ s.width) (hh : 0 ≤ s.height) :
    ∃ (s1 : RandomDirectionGraph α) (p : Point α),
      updateValue s value tPush tCut = some s1 ∧
      p = { x := max 0 (min s.width newX), y := max 0 (min s.height newY),
            value := value, time := tPush } ∧
      s1.data = (s.data ++ [p]).filter (fun point => decide (point.time ≥ tCut - s.duration)) ∧
      (0 ≤ p.x ∧ p.x ≤ s.width) ∧ (0 ≤ p.y ∧ p.y ≤ s.height) := by
  subst hX hY
  exact ⟨_, _, updateValue_eq s value tPush tCut lastPoint hlast, rfl, rfl,
    ⟨le_max_left _ _, max_le hw (min_le_left _ _)⟩,
    ⟨le_max_left _ _, max_le hh (min_le_left _ _)⟩⟩

/-- C1 at demoCorner with value 100: the candidate (800.7, -1.1) leaves the
viewport on both axes. -/
theorem updateValue_clamps_witness :
    ∃ (s1 : RandomDirectionGraph ℚ) (p : Point ℚ),
      updateValue demoCorner 100 7 7 = some s1 ∧
      p = { x := max 0 (min demoCorner.width (8007 / 10)),
            y := max 0 (min demoCorner.height (-11 / 10)), value := 100, time := 7 } ∧
      s1.data = (demoCorner.data ++ [p]).filter
        (fun point => decide (point.time ≥ 7 - demoCorner.duration)) ∧
      (0 ≤ p.x ∧ p.x ≤ demoCorner.width) ∧ (0 ≤ p.y ∧ p.y ≤ demoCorner.height) :=
  updateValue_clamps demoCorner 100 7 7 { x := 1599 / 2, y := 1 / 2, value := 50, time := 1 }
    (8007 / 10) (-11 / 10) rfl (by norm_num [demoCorner]) (by norm_num [demoCorner])
    (by norm_num [demoCorner]) (by norm_num [demoCorner])

/-- C3 (bounce reflection). On a non-empty buffer updateValue returns, and on
each axis on its own the direction component is negated when the candidate
coordinate is <= 0 or >= the extent and is left as it was otherwise. With
direction (1, 0) and candidate x >= width the new x-component is negative and the
y-component keeps its value; when both axes hit, both components are negated. -/
theorem updateValue_reflects (s : RandomDirectionGraph α) (value tPush tCut : α)
    (lastPoint : Point α) (newX newY : α)
    (hlast : s.data.getLast? = some lastPoint)
    (hX : newX = lastPoint.x + s.currentDirection.x * (value / 50))
    (hY : newY = lastPoint.y + s.currentDirection.y * (value / 50)) :
    ∃ s1 : RandomDirectionGraph α,
      updateValue s value tPush tCut = some s1 ∧
      (s1.currentDirection.x =
        if newX ≤ 0 ∨ newX ≥ s.width then -s.currentDirection.x else s.currentDirection.x) ∧
      (s1.currentDirection.y =
        if newY ≤ 0 ∨ newY ≥ s.height then -s.currentDirection.y else s.currentDirection.y) ∧
      (s.currentDirection = { x := 1, y := 0 } → newX ≥ s.width →
        s1.currentDirection.x < 0 ∧ s1.currentDirection.y = s.currentDirection.y) ∧
      ((newX ≤ 0 ∨ newX ≥ s.width) → (newY ≤ 0 ∨ newY ≥ s.height) →
        s1.currentDirection = { x := -s.currentDirection.x, y := -s.currentDirection.y }) := by
  subst hX hY
  refine ⟨_, updateValue_eq s value tPush tCut lastPoint hlast, ?_, ?_, ?_, ?_⟩
  · simp only [mul_neg, mul_one]
  · simp only [mul_neg, mul_one]
  · intro hdir hge
    have hx : s.currentDirection.x = 1 := by rw [hdir]
    have hy : s.currentDirection.y = 0 := by rw [hdir]
    constructor
    · show (if _ then s.currentDirection.x * -1 else s.currentDirection.x) < (0 : α)
      rw [if_pos (Or.inr hge), hx]
      norm_num
    · simp only [hy]
      split <;> simp
  · intro hbx hby
    simp only [if_pos hbx, if_pos hby, mul_neg, mul_one]

/-- C3 at demoCorner with value 100: a corner collision, both components flip. -/
theorem updateValue_reflects_witness :
    ∃ s1 : RandomDirectionGraph ℚ,
      updateValue demoCorner 100 7 7 = some s1 ∧
      (s1.currentDirection.x =
        if (8007 / 10 : ℚ) ≤ 0 ∨ (8007 / 10 : ℚ) ≥ demoCorner.width
        then -demoCorner.currentDirection.x else demoCorner.currentDirection.x) ∧
      (s1.currentDirection.y =
        if (-11 / 10 : ℚ) ≤ 0 ∨ (-11 / 10 : ℚ) ≥ demoCorner.height
        then -demoCorner.currentDirection.y else demoCorner.currentDirection.y) ∧
      (demoCorner.currentDirection = { x := 1, y := 0 } → (8007 / 10 : ℚ) ≥ demoCorner.width →
        s1.currentDirection.x < 0 ∧ s1.currentDirection.y = demoCorner.currentDirection.y) ∧
      (((8007 / 10 : ℚ) ≤ 0 ∨ (8007 / 10 : ℚ) ≥ demoCorner.width) →
        ((-11 / 10 : ℚ) ≤ 0 ∨ (-11 / 10 : ℚ) ≥ demoCorner.height) →
        s1.currentDirection =
          { x := -demoCorner.currentDirection.x, y := -demoCorner.currentDirection.y }) :=
  updateValue_reflects demoCorner 100 7 7 { x := 1599 / 2, y := 1 / 2, value := 50, time := 1 }
    (8007 / 10) (-11 / 10) rfl (by norm_num [demoCorner]) (by norm_num [demoCorner])

/-- C4 (bounce shortens the interval). On a non-empty buffer updateValue
returns and leaves lastDirectionChange as it was; if the candidate hits a bound
on at least one axis, directionChangeInterval is 200 afterwards whatever it was
before, and if no axis hits it keeps its value. -/
theorem updateValue_bounce_interval (s : RandomDirectionGraph α) (value tPush tCut : α)
    (lastPoint : Point α) (newX newY : α)
    (hlast : s.data.getLast? = some lastPoint)
    (hX : newX = lastPoint.x + s.currentDirection.x * (value / 50))
    (hY : newY = lastPoint.y + s.currentDirection.y * (value / 50)) :
    ∃ s1 : RandomDirectionGraph α,
      updateValue s value tPush tCut = some s1 ∧
      s1.lastDirectionChange = s.lastDirectionChange ∧
      (((newX ≤ 0 ∨ newX ≥ s.width) ∨ (newY ≤ 0 ∨ newY ≥ s.height)) →
        s1.directionChangeInterval = 200) ∧
      (¬ ((newX ≤ 0 ∨ newX ≥ s.width) ∨ (newY ≤ 0 ∨ newY ≥ s.height)) →
        s1.directionChangeInterval = s.directionChangeInterval) := by
  subst hX hY
  refine ⟨_, updateValue_eq s value tPush tCut lastPoint hlast, rfl, ?_, ?_⟩
  · intro hb
    simp only [if_pos hb]
  · intro hb
    simp only [if_neg hb]

/-- C4 at demoCorner with value 100: the interval 1000 becomes 200. -/
theorem updateValue_bounce_interval_witness :
    ∃ s1 : RandomDirectionGraph ℚ,
      updateValue demoCorner 100 7 7 = some s1 ∧
      s1.lastDirectionChange = demoCorner.lastDirectionChange ∧
      ((((8007 / 10 : ℚ) ≤ 0 ∨ (8007 / 10 : ℚ) ≥ demoCorner.width) ∨
          ((-11 / 10 : ℚ) ≤ 0 ∨ (-11 / 10 : ℚ) ≥ demoCorner.height)) →
        s1.directionChangeInterval = 200) ∧
      (¬ (((8007 / 10 : ℚ) ≤ 0 ∨ (8007 / 10 : ℚ) ≥ demoCorner.width) ∨
          ((-11 / 10 : ℚ) ≤ 0 ∨ (-11 / 10 : ℚ) ≥ demoCorner.height)) →
        s1.directionChangeInterval = demoCorner.directionChangeInterval) :=
  updateValue_bounce_interval demoCorner 100 7 7
    { x := 1599 / 2, y := 1 / 2, value := 50, time := 1 }
    (8007 / 10) (-11 / 10) rfl (by norm_num [demoCorner]) (by norm_num [demoCorner])

/-- A prune keeps the point pushed last when that point passes the test. -/
theorem getLast?_filter_concat {β : Type} (keep : β → Bool) (l : List β) (a : β)
    (h : keep a = true) : ((l ++ [a]).filter keep).getLast? = some a := by
  rw [List.filter_append, List.filter_cons_of_pos h, List.filter_nil, List.getLast?_concat]

/-- One call with a single clock reading on a non-empty buffer and a retention
window of at least 0: the call returns, the options are kept, every point left
is inside the window and the last point is the one just pushed. -/
theorem updateValue_single_clock (s : RandomDirectionGraph α) (value now : α)
    (hne : s.data ≠ []) (hd : 0 ≤ s.duration) :
    ∃ (s1 : RandomDirectionGraph α) (p : Point α),
      updateValue s value now now = some s1 ∧ s1.duration = s.duration ∧
      (∀ q ∈ s1.data, now - q.time ≤ s.duration) ∧
      s1.data.getLast? = some p ∧ p.value = value ∧ p.time = now := by
  obtain ⟨lastPoint, hlast⟩ : ∃ lastPoint, s.data.getLast? = some lastPoint := by
    cases hl : s.data.getLast? with
    | none => exact absurd (List.getLast?_eq_none_iff.mp hl) hne
    | some lastPoint => exact ⟨lastPoint, rfl⟩
  refine ⟨_,
    { x := max 0 (min s.width (lastPoint.x + s.currentDirection.x * (value / 50))),
      y := max 0 (min s.height (lastPoint.y + s.currentDirection.y * (value / 50))),
      value := value, time := now },
    updateValue_eq s value now now lastPoint hlast, rfl, ?_, ?_, ?_, ?_⟩
  · intro q hq
    have hq2 := (List.mem_filter.mp hq).2
    simp only [ge_iff_le, decide_eq_true_eq] at hq2
    linarith
  · apply getLast?_filter_concat
    simp only [ge_iff_le, decide_eq_true_eq]
    linarith
  · rfl
  · rfl

/-- A sequence of single-clock calls on a non-empty buffer with a retention
window of at least 0 runs to its end and leaves a non-empty buffer. -/
theorem updateValues_some (calls : List (α × α)) :
    ∀ s : RandomDirectionGraph α, s.data ≠ [] → 0 ≤ s.duration →
      ∃ s1 : RandomDirectionGraph α,
        updateValues s calls = some s1 ∧ s1.data ≠ [] ∧ s1.duration = s.duration := by
  induction calls with
  | nil => intro s hne _; exact ⟨s, rfl, hne, rfl⟩
  | cons call rest ih =>
    intro s hne hd
    obtain ⟨s1, p, h1, hdur, _, hp, _, _⟩ := updateValue_single_clock s call.1 call.2 hne hd
    have hne1 : s1.data ≠ [] := by
      intro hnil
      rw [hnil] at hp
      simp at hp
    obtain ⟨s2, h2, hne2, hdur2⟩ := ih s1 hne1 (hdur ▸ hd)
    refine ⟨s2, ?_, hne2, hdur2.trans hdur⟩
    simp only [updateValues, h1, h2]

/-- C2 (buffer retention). From a non-empty buffer and with a retention window
duration >= 0, every sequence of updateValue calls runs through, and after one
more call at clock reading now every point left in the buffer satisfies
now - point.time <= duration and the buffer ends with the point just appended
(value as passed, time = now), so it is not empty. -/
theorem updateValue_retention (s : RandomDirectionGraph α) (calls : List (α × α))
    (value now : α) (hne : s.data ≠ []) (hd : 0 ≤ s.duration) :
    ∃ (s1 s2 : RandomDirectionGraph α) (p : Point α),
      updateValues s calls = some s1 ∧
      updateValue s1 value now now = some s2 ∧
      (∀ q ∈ s2.data, now - q.time ≤ s.duration) ∧
      s2.data ≠ [] ∧ s2.data.getLast? = some p ∧ p.value = value ∧ p.time = now := by
  obtain ⟨s1, h1, hne1, hdur1⟩ := updateValues_some calls s hne hd
  obtain ⟨s2, p, h2, _, hwin, hp, hv, ht⟩ :=
    updateValue_single_clock s1 value now hne1 (hdur1 ▸ hd)
  refine ⟨s1, s2, p, h1, h2, ?_, ?_, hp, hv, ht⟩
  · intro q hq
    rw [← hdur1]
    exact hwin q hq
  · intro hnil
    rw [hnil] at hp
    simp at hp

/-- C2 at demoCorner: two calls at clock readings 6000 and 6001, then a call at
12000 that prunes every older point. -/
theorem updateValue_retention_witness :
    ∃ (s1 s2 : RandomDirectionGraph ℚ) (p : Point ℚ),
      updateValues demoCorner [(100, 6000), (30, 6001)] = some s1 ∧
      updateValue s1 50 12000 12000 = some s2 ∧
      (∀ q ∈ s2.data, 12000 - q.time ≤ demoCorner.duration) ∧
      s2.data ≠ [] ∧ s2.data.getLast? = some p ∧ p.value = 50 ∧ p.time = 12000 :=
  updateValue_retention demoCorner [(100, 6000), (30, 6001)] 50 12000
    (by simp [demoCorner]) (by norm_num [demoCorner])

/-! ## changeDirection -/

/-- C6 (heading re-roll contract), over the reals with the real cosine and sine.
For draws r1, r2 in [0,1): when now - lastDirectionChange > directionChangeInterval
the call sets currentDirection = (cos a, sin a) with a = r1 * 2π, which lies in
[0, 2π), sets lastDirectionChange = now and directionChangeInterval =
500 + r2 * 2500, which lies in [500, 3000], and changes nothing else; when the
strict test fails it returns the state as it was. -/
theorem changeDirection_contract (s : RandomDirectionGraph ℝ) (now r1 r2 : ℝ)
    (h1 : 0 ≤ r1 ∧ r1 < 1) (h2 : 0 ≤ r2 ∧ r2 < 1) :
    (now - s.lastDirectionChange > s.directionChangeInterval →
      changeDirection { PI := Real.pi, cos := Real.cos, sin := Real.sin } s now r1 r2 =
        { s with
          currentDirection :=
            { x := Real.cos (r1 * (2 * Real.pi)), y := Real.sin (r1 * (2 * Real.pi)) }
          lastDirectionChange := now
          directionChangeInterval := 500 + r2 * 2500 } ∧
      (0 ≤ r1 * (2 * Real.pi) ∧ r1 * (2 * Real.pi) < 2 * Real.pi) ∧
      (500 ≤ 500 + r2 * 2500 ∧ 500 + r2 * 2500 ≤ 3000)) ∧
    (¬ (now - s.lastDirectionChange > s.directionChangeInterval) →
      changeDirection { PI := Real.pi, cos := Real.cos, sin := Real.sin } s now r1 r2 = s) := by
  have hpi : 0 < 2 * Real.pi := by positivity
  constructor
  · intro h
    refine ⟨?_, ⟨mul_nonneg h1.1 hpi.le, ?_⟩, ⟨by linarith [h2.1], by linarith [h2.2]⟩⟩
    · have ha : r1 * Real.pi * 2 = r1 * (2 * Real.pi) := by ring
      simp only [changeDirection, if_pos h, ha]
    · calc r1 * (2 * Real.pi) < 1 * (2 * Real.pi) := mul_lt_mul_of_pos_right h1.2 hpi
        _ = 2 * Real.pi := one_mul _
  · intro h
    simp only [changeDirection, if_neg h]

/-- C6 at demo, 2000 ms after the last change with interval 1000: a re-roll with
draws 1/4 and 1/2. -/
theorem changeDirection_contract_witness :
    (2000 - (demo : RandomDirectionGraph ℝ).lastDirectionChange >
        (demo : RandomDirectionGraph ℝ).directionChangeInterval →
      changeDirection { PI := Real.pi, cos := Real.cos, sin := Real.sin } demo 2000 (1 / 4) (1 / 2) =
        { (demo : RandomDirectionGraph ℝ) with
          currentDirection :=
            { x := Real.cos (1 / 4 * (2 * Real.pi)), y := Real.sin (1 / 4 * (2 * Real.pi)) }
          lastDirectionChange := 2000
          directionChangeInterval := 500 + 1 / 2 * 2500 } ∧
      (0 ≤ 1 / 4 * (2 * Real.pi) ∧ 1 / 4 * (2 * Real.pi) < 2 * Real.pi) ∧
      ((500 : ℝ) ≤ 500 + 1 / 2 * 2500 ∧ (500 : ℝ) + 1 / 2 * 2500 ≤ 3000)) ∧
    (¬ (2000 - (demo : RandomDirectionGraph ℝ).lastDirectionChange >
        (demo : RandomDirectionGraph ℝ).directionChangeInterval) →
      changeDirection { PI := Real.pi, cos := Real.cos, sin := Real.sin } demo 2000 (1 / 4) (1 / 2) =
        demo) :=
  changeDirection_contract demo 2000 (1 / 4) (1 / 2) (by norm_num) (by norm_num)

/-- C7 (idempotent no-op). With a second draw r2 >= 0, a second call of
changeDirection at the same clock reading returns the state the first call left,
whether or not the first call re-rolled; and when
now - lastDirectionChange <= directionChangeInterval the first call already
returns the state as it was. -/
theorem changeDirection_idempotent (M : JSMath α) (s : RandomDirectionGraph α)
    (now r1 r2 r3 r4 : α) (h2 : 0 ≤ r2) :
    changeDirection M (changeDirection M s now r1 r2) now r3 r4 = changeDirection M s now r1 r2 ∧
    (now - s.lastDirectionChange ≤ s.directionChangeInterval →
      changeDirection M s now r1 r2 = s ∧
      changeDirection M (changeDirection M s now r1 r2) now r3 r4 = s) := by
  have hsecond :
      changeDirection M (changeDirection M s now r1 r2) now r3 r4 =
        changeDirection M s now r1 r2 := by
    by_cases h : now - s.lastDirectionChange > s.directionChangeInterval
    · have hno : ¬ (now - now > 500 + r2 * 2500) := by
        intro hlt
        have : now - now = 0 := sub_self now
        linarith [mul_nonneg h2 (by norm_num : (0 : α) ≤ 2500)]
      simp only [changeDirection, if_pos h, if_neg hno]
    · simp only [changeDirection, if_neg h]
  refine ⟨hsecond, fun hle => ?_⟩
  have hfirst : changeDirection M s now r1 r2 = s := by
    simp only [changeDirection, if_neg (not_lt.mpr hle)]
  exact ⟨hfirst, hsecond.trans hfirst⟩

/-- C7 at demo over the reals: the first call (2000 ms after the last change)
re-rolls, the second call at the same reading changes nothing. -/
theorem changeDirection_idempotent_witness :
    changeDirection { PI := Real.pi, cos := Real.cos, sin := Real.sin }
        (changeDirection { PI := Real.pi, cos := Real.cos, sin := Real.sin }
          (demo : RandomDirectionGraph ℝ) 2000 (1 / 4) (1 / 2)) 2000 (3 / 4) (1 / 8) =
      changeDirection { PI := Real.pi, cos := Real.cos, sin := Real.sin }
        (demo : RandomDirectionGraph ℝ) 2000 (1 / 4) (1 / 2) ∧
    (2000 - (demo : RandomDirectionGraph ℝ).lastDirectionChange ≤
        (demo : RandomDirectionGraph ℝ).directionChangeInterval →
      changeDirection { PI := Real.pi, cos := Real.cos, sin := Real.sin }
        (demo : RandomDirectionGraph ℝ) 2000 (1 / 4) (1 / 2) = demo ∧
      changeDirection { PI := Real.pi, cos := Real.cos, sin := Real.sin }
        (changeDirection { PI := Real.pi, cos := Real.cos, sin := Real.sin }
          (demo : RandomDirectionGraph ℝ) 2000 (1 / 4) (1 / 2)) 2000 (3 / 4) (1 / 8) = demo) :=
  changeDirection_idempotent { PI := Real.pi, cos := Real.cos, sin := Real.sin } demo
    2000 (1 / 4) (1 / 2) (3 / 4) (1 / 8) (by norm_num)

/-! ## The heading stays a unit vector -/

/-- The bounce of updateValue only flips signs: the squared length of the
direction is the same before and after every call. -/
theorem updateValue_direction_sq (s s1 : RandomDirectionGraph α) (value tPush tCut : α)
    (h : updateValue s value tPush tCut = some s1) :
    s1.currentDirection.x ^ 2 + s1.currentDirection.y ^ 2 =
      s.currentDirection.x ^ 2 + s.currentDirection.y ^ 2 := by
  cases hl : s.data.getLast? with
  | none => simp [updateValue, hl] at h
  | some lastPoint =>
    rw [updateValue_eq s value tPush tCut lastPoint hl] at h
    have h1 := (Option.some.inj h).symm
    subst h1
    show (if _ then s.currentDirection.x * -1 else s.currentDirection.x) ^ 2 +
        (if _ then s.currentDirection.y * -1 else s.currentDirection.y) ^ 2 = _
    split <;> split <;> ring

/-- A frame leaves the direction alone. -/
theorem animate_currentDirection (s : RandomDirectionGraph α) :
    (animate s).currentDirection = s.currentDirection := by
  unfold animate draw
  split <;> rfl

/-- The constructed instance heads along (1, 0). -/
theorem construct_currentDirection (duration : α) (showControls : Bool)
    (innerWidth innerHeight : α) (handles : ℕ) (now r : α) (clock : ℕ → α) :
    (construct duration showControls innerWidth innerHeight handles now r clock).currentDirection =
      { x := 1, y := 0 } := by
  unfold construct init
  simp only [animate_currentDirection]
  cases showControls <;> rfl

/-- The destroy method leaves the direction alone. -/
theorem destroy_currentDirection (s : RandomDirectionGraph α) :
    (destroy s).currentDirection = s.currentDirection := by
  unfold destroy
  rcases s.animationId with _ | h
  · dsimp only
    split <;> rfl
  · dsimp only
    split <;> split <;> rfl

/-- C9 (unit heading invariant), over the reals with the real cosine and sine.
In every state reachable from construction the direction has x^2 + y^2 = 1, and
every updateValue call made from such a state, bounce or not, returns a state
whose direction again has x^2 + y^2 = 1. -/
theorem unit_heading (s : RandomDirectionGraph ℝ)
    (hr : Reachable { PI := Real.pi, cos := Real.cos, sin := Real.sin } s) :
    s.currentDirection.x ^ 2 + s.currentDirection.y ^ 2 = 1 ∧
    ∀ (value tPush tCut : ℝ) (s1 : RandomDirectionGraph ℝ),
      updateValue s value tPush tCut = some s1 →
      s1.currentDirection.x ^ 2 + s1.currentDirection.y ^ 2 = 1 := by
  have hunit : s.currentDirection.x ^ 2 + s.currentDirection.y ^ 2 = 1 := by
    induction hr with
    | construct duration showControls innerWidth innerHeight handles now r clock =>
      rw [construct_currentDirection]
      norm_num
    | @changeDirection s0 now r1 r2 _ ih =>
      unfold RandomGraph.changeDirection
      split
      · exact Real.cos_sq_add_sin_sq _
      · exact ih
    | updateValue value tPush tCut _ hstep ih =>
      rw [updateValue_direction_sq _ _ value tPush tCut hstep]
      exact ih
    | resizeCanvas innerWidth innerHeight _ ih => exact ih
    | @frameTick s0 h _ ih =>
      unfold RandomGraph.frameTick
      split
      · rw [animate_currentDirection]
        exact ih
      · exact ih
    | destroy _ ih =>
      rw [destroy_currentDirection]
      exact ih
  refine ⟨hunit, fun value tPush tCut s1 hstep => ?_⟩
  rw [updateValue_direction_sq _ _ value tPush tCut hstep]
  exact hunit

/-- C9 at the state reached by constructing an 800 x 600 instance at clock
reading 0 and re-rolling the heading 5000 ms later with draws 1/3 and 1/2. -/
theorem unit_heading_witness :
    (changeDirection { PI := Real.pi, cos := Real.cos, sin := Real.sin }
        (construct 5000 true 800 600 0 0 (1 / 2) (fun _ => 0)) 5000 (1 / 3) (1 / 2)
      ).currentDirection.x ^ 2 +
    (changeDirection { PI := Real.pi, cos := Real.cos, sin := Real.sin }
        (construct 5000 true 800 600 0 0 (1 / 2) (fun _ => 0)) 5000 (1 / 3) (1 / 2)
      ).currentDirection.y ^ 2 = 1 :=
  (unit_heading _
    (Reachable.changeDirection 5000 (1 / 3) (1 / 2)
      (Reachable.construct 5000 true 800 600 0 0 (1 / 2) (fun _ => 0)))).1

/-! ## The end-to-end scenario -/

/-- The buffer, the viewport and the heading state of a constructed instance. -/
theorem construct_core (duration : α) (showControls : Bool)
    (innerWidth innerHeight : α) (handles : ℕ) (now r : α) (clock : ℕ → α) :
    (construct duration showControls innerWidth innerHeight handles now r clock).data =
      List.map (fun i => ({ x := innerWidth / 2, y := innerHeight / 2, value := 50,
                            time := clock i - (i : α) * 50 } : Point α)) (List.range 100) ∧
    (construct duration showControls innerWidth innerHeight handles now r clock).width =
      innerWidth ∧
    (construct duration showControls innerWidth innerHeight handles now r clock).height =
      innerHeight ∧
    (construct duration showControls innerWidth innerHeight handles now r clock).duration =
      duration ∧
    (construct duration showControls innerWidth innerHeight handles now r clock).lastDirectionChange =
      now ∧
    (construct duration showControls innerWidth innerHeight handles now r clock).directionChangeInterval =
      1000 + r * 2000 := by
  unfold construct init animate draw
  cases showControls <;>
    simp [createCanvas, resizeCanvas, createControls, initializeData, apply_ite]

/-- One step of the rightward run strictly inside the viewport: the call returns
and the last point moves from x to x + 1. -/
theorem rightward_step (t x : α) (s : RandomDirectionGraph α)
    (h0 : 0 < x + 1) (h1 : x + 1 < 800) (hs : RightwardAt x s) :
    ∃ s1 : RandomDirectionGraph α,
      updateValue s 50 t t = some s1 ∧ RightwardAt (x + 1) s1 ∧
      s1.directionChangeInterval = s.directionChangeInterval := by
  obtain ⟨hw, hh, hd, hdir, p, hp, hpx, hpy⟩ := hs
  have hx : s.currentDirection.x = 1 := by rw [hdir]
  have hy : s.currentDirection.y = 0 := by rw [hdir]
  have hcx : p.x + s.currentDirection.x * (50 / 50) = x + 1 := by rw [hx, hpx]; norm_num
  have hcy : p.y + s.currentDirection.y * (50 / 50) = 300 := by rw [hy, hpy]; norm_num
  have hnx : ¬ (x + 1 ≤ 0 ∨ x + 1 ≥ 800) := by
    rintro (h | h) <;> linarith
  have hny : ¬ ((300 : α) ≤ 0 ∨ (300 : α) ≥ 600) := by norm_num
  refine ⟨_, updateValue_eq s 50 t t p hp, ⟨hw, hh, hd, ?_, ?_⟩, ?_⟩
  · simp only [hcx, hcy, hw, hh, if_neg hnx, if_neg hny]
    exact hdir
  · refine ⟨_, getLast?_filter_concat _ _ _ ?_, ?_, ?_⟩
    · simp only [ge_iff_le, decide_eq_true_eq, hd]
      linarith
    · simp only [hcx, hw]
      rw [min_eq_right (by linarith), max_eq_right (by linarith)]
    · simp only [hcy, hh]
      norm_num
  · simp only [hcx, hcy, hw, hh, hnx, hny, or_self, if_false]

/-- The rightward run: k calls, all strictly inside the viewport, move the last
point from x to x + k and leave the heading state alone. -/
theorem rightward_run (t : α) (k : ℕ) :
    ∀ (x : α) (s : RandomDirectionGraph α), 0 < x → x + (k : α) < 800 → RightwardAt x s →
      ∃ sk : RandomDirectionGraph α,
        updateValues s (List.replicate k (50, t)) = some sk ∧ RightwardAt (x + (k : α)) sk := by
  induction k with
  | zero =>
    intro x s _ _ hs
    refine ⟨s, rfl, ?_⟩
    simpa using hs
  | succ k ih =>
    intro x s h0 h1 hs
    have hk : (0 : α) ≤ (k : α) := Nat.cast_nonneg k
    push_cast at h1
    obtain ⟨s1, hstep, hs1, _⟩ := rightward_step t x s (by linarith) (by linarith) hs
    obtain ⟨sk, hrun, hsk⟩ := ih (x + 1) s1 (by linarith) (by linarith) hs1
    refine ⟨sk, ?_, ?_⟩
    · simp only [List.replicate_succ, updateValues, hstep, hrun]
    · have he : x + ((k + 1 : ℕ) : α) = x + 1 + (k : α) := by push_cast; ring
      rw [he]
      exact hsk

/-- C8 (end-to-end scenario). An instance constructed at clock reading t0 on a
800 x 600 viewport holds 100 points, all at (400, 300), and heads along (1, 0).
With no re-roll, updateValue(50) at t0 returns a state s1 whose buffer has 101
points and ends with (401, 300), with direction and interval untouched (no
bounce). All of 400 further calls updateValue(50) at t0 + 1 return, and among
them is a call (after k < 400 earlier ones) whose candidate x is >= 800: the
point it stores has x = 800 and it leaves the direction x-component negative. -/
theorem end_to_end_scenario (t0 r : α) (showControls : Bool) (handles : ℕ) :
    ∃ s1 : RandomDirectionGraph α,
      (construct 5000 showControls 800 600 handles t0 r (fun _ => t0)).data.length = 100 ∧
      (∀ q ∈ (construct 5000 showControls 800 600 handles t0 r (fun _ => t0)).data,
        q.x = 400 ∧ q.y = 300) ∧
      (construct 5000 showControls 800 600 handles t0 r (fun _ => t0)).currentDirection =
        { x := 1, y := 0 } ∧
      updateValue (construct 5000 showControls 800 600 handles t0 r (fun _ => t0)) 50 t0 t0 =
        some s1 ∧
      s1.data.length = 101 ∧
      s1.data.getLast? = some { x := 401, y := 300, value := 50, time := t0 } ∧
      s1.currentDirection = { x := 1, y := 0 } ∧
      s1.directionChangeInterval =
        (construct 5000 showControls 800 600 handles t0 r
          (fun _ => t0)).directionChangeInterval ∧
      (∃ s401 : RandomDirectionGraph α,
        updateValues s1 (List.replicate 400 (50, t0 + 1)) = some s401) ∧
      ∃ (k : ℕ) (sk sk1 : RandomDirectionGraph α) (lastPoint p : Point α),
        k < 400 ∧
        updateValues s1 (List.replicate k (50, t0 + 1)) = some sk ∧
        sk.data.getLast? = some lastPoint ∧
        lastPoint.x + sk.currentDirection.x * (50 / 50) ≥ 800 ∧
        updateValue sk 50 (t0 + 1) (t0 + 1) = some sk1 ∧
        sk1.data.getLast? = some p ∧ p.x = 800 ∧ sk1.currentDirection.x < 0 := by
  obtain ⟨hdata, hw, hh, hd, _, _⟩ :=
    construct_core (5000 : α) showControls 800 600 handles t0 r (fun _ => t0)
  have hdir := construct_currentDirection (5000 : α) showControls 800 600 handles t0 r
    (fun _ => t0)
  generalize construct (5000 : α) showControls 800 600 handles t0 r (fun _ => t0) = s0
    at hdata hw hh hd hdir
  have hlast0 : s0.data.getLast? =
      some { x := 800 / 2, y := 600 / 2, value := 50, time := t0 - ((99 : ℕ) : α) * 50 } := by
    rw [hdata, List.range_succ, List.map_append, List.map_singleton, List.getLast?_concat]
  have hx : s0.currentDirection.x = 1 := by rw [hdir]
  have hy : s0.currentDirection.y = 0 := by rw [hdir]
  have hmem : ∀ q ∈ s0.data, q.x = 400 ∧ q.y = 300 ∧ t0 - 5000 ≤ q.time := by
    intro q hq
    rw [hdata] at hq
    obtain ⟨i, hi, rfl⟩ := List.mem_map.mp hq
    have hi2 : i ≤ 99 := by
      have := List.mem_range.mp hi
      omega
    have hi3 : (i : α) ≤ 99 := by exact_mod_cast hi2
    refine ⟨by norm_num, by norm_num, ?_⟩
    show t0 - 5000 ≤ t0 - (i : α) * 50
    linarith
  have hstep := updateValue_eq s0 50 t0 t0 _ hlast0
  simp only [hx, hy, hw, hh, hd] at hstep
  norm_num at hstep
  have hkeep : ∀ q ∈ s0.data, decide (t0 ≤ q.time + 5000) = true := by
    intro q hq
    rw [decide_eq_true_eq]
    linarith [(hmem q hq).2.2]
  rw [List.filter_eq_self.mpr hkeep] at hstep
  have hlen : s0.data.length = 100 := by rw [hdata]; simp
  obtain ⟨s1, hstep1, hdata1, hw1, hh1, hd1, hdir1, hint1⟩ :
      ∃ s1 : RandomDirectionGraph α, updateValue s0 50 t0 t0 = some s1 ∧
        s1.data = s0.data ++ [({ x := 401, y := 300, value := 50, time := t0 } : Point α)] ∧
        s1.width = 800 ∧ s1.height = 600 ∧ s1.duration = 5000 ∧
        s1.currentDirection = { x := 1, y := 0 } ∧
        s1.directionChangeInterval = s0.directionChangeInterval :=
    ⟨_, hstep, rfl, rfl, rfl, rfl, rfl, rfl⟩
  have hlast1 : s1.data.getLast? = some { x := 401, y := 300, value := 50, time := t0 } := by
    rw [hdata1]
    exact List.getLast?_concat _
  refine ⟨s1, hlen, fun q hq => ⟨(hmem q hq).1, (hmem q hq).2.1⟩, hdir, hstep1, ?_, hlast1,
    hdir1, hint1, ?_, ?_⟩
  · rw [hdata1]
    simp [hlen]
  · obtain ⟨s401, h401, _, _⟩ := updateValues_some (List.replicate 400 ((50 : α), t0 + 1)) s1
      (by rw [hdata1]; simp) (by rw [hd1]; norm_num)
    exact ⟨s401, h401⟩
  · have hs1 : RightwardAt (401 : α) s1 := ⟨hw1, hh1, hd1, hdir1, _, hlast1, rfl, rfl⟩
    obtain ⟨sk, hrun, hwk, hhk, hdk, hdirk, lastPoint, hlastk, hlx, hly⟩ :=
      rightward_run (t0 + 1) 398 (401 : α) s1 (by norm_num) (by norm_num) hs1
    have hxk : sk.currentDirection.x = 1 := by rw [hdirk]
    have hcand : lastPoint.x + sk.currentDirection.x * (50 / 50) = 800 := by
      rw [hxk, hlx]; norm_num
    refine ⟨398, sk, _, lastPoint,
      { x := max 0 (min sk.width (lastPoint.x + sk.currentDirection.x * (50 / 50))),
        y := max 0 (min sk.height (lastPoint.y + sk.currentDirection.y * (50 / 50))),
        value := 50, time := t0 + 1 },
      by norm_num, hrun, hlastk, hcand.ge,
      updateValue_eq sk 50 (t0 + 1) (t0 + 1) lastPoint hlastk, ?_, ?_, ?_⟩
    · apply getLast?_filter_concat
      simp only [ge_iff_le, decide_eq_true_eq, hdk]
      linarith
    · simp only [hcand, hwk]
      norm_num
    · simp only [hcand, hwk]
      rw [if_pos (Or.inr le_rfl), hxk]
      norm_num

/-! ## Order of the buffer -/

/-- On a list stored newest first, the prune keeps a prefix. -/
theorem filter_newest_first (c : α) (l : List (Point α))
    (hl : l.Pairwise (fun a b => b.time ≤ a.time)) :
    ∃ m : ℕ, l.filter (fun point => decide (point.time ≥ c)) = l.take m := by
  induction l with
  | nil => exact ⟨0, rfl⟩
  | cons a l ih =>
    rw [List.pairwise_cons] at hl
    by_cases ha : a.time ≥ c
    · obtain ⟨m, hm⟩ := ih hl.2
      refine ⟨m + 1, ?_⟩
      rw [List.filter_cons_of_pos (by simpa using ha), hm, List.take_succ_cons]
    · refine ⟨0, ?_⟩
      rw [List.take_zero, List.filter_eq_nil_iff]
      intro b hb
      rw [decide_eq_true_eq]
      rcases List.mem_cons.mp hb with rfl | hb
      · exact ha
      · intro hge
        exact ha (le_trans hge (hl.1 b hb))

/-- On a list in chronological order, the prune removes a prefix. -/
theorem filter_oldest_first (c : α) (l : List (Point α))
    (hl : l.Pairwise (fun a b => a.time ≤ b.time)) :
    ∃ n : ℕ, l.filter (fun point => decide (point.time ≥ c)) = l.drop n := by
  induction l with
  | nil => exact ⟨0, rfl⟩
  | cons a l ih =>
    rw [List.pairwise_cons] at hl
    by_cases ha : a.time ≥ c
    · refine ⟨0, ?_⟩
      rw [List.drop_zero, List.filter_eq_self]
      intro b hb
      rw [decide_eq_true_eq]
      rcases List.mem_cons.mp hb with rfl | hb
      · exact ha
      · exact le_trans ha (hl.1 b hb)
    · obtain ⟨n, hn⟩ := ih hl.2
      refine ⟨n + 1, ?_⟩
      rw [List.filter_cons_of_neg (by simpa using ha), hn, List.drop_succ_cons]

/-- The seed points are stored newest first when the clock advances by at most
50 ms from one iteration of the seeding loop to the next. -/
theorem seeds_newest_first (duration : α) (showControls : Bool)
    (innerWidth innerHeight : α) (handles : ℕ) (now r : α) (clock : ℕ → α)
    (hclock : ∀ i, clock (i + 1) ≤ clock i + 50) :
    (construct duration showControls innerWidth innerHeight handles now r clock).data.Pairwise
      (fun a b => b.time ≤ a.time) := by
  rw [(construct_core duration showControls innerWidth innerHeight handles now r clock).1,
    List.pairwise_map]
  have hanti : Antitone (fun i : ℕ => clock i - (i : α) * 50) := by
    apply antitone_nat_of_succ_le
    intro n
    have := hclock n
    push_cast
    linarith
  exact (List.pairwise_lt_range 100).imp (fun hab => hanti (le_of_lt hab))

/-- One call at a clock reading t not earlier than tl keeps the shape of the
buffer: the prune cuts the seed part at its end and the appended part at its
start. -/
theorem updateValue_shape (seeds : List (Point α)) (tl value t : α)
    (s : RandomDirectionGraph α) (m : ℕ) (app : List (Point α))
    (hseeds : seeds.Pairwise (fun a b => b.time ≤ a.time)) (ht : tl ≤ t)
    (hdata : s.data = seeds.take m ++ app)
    (happ : app.Pairwise (fun a b => a.time ≤ b.time))
    (hle : ∀ b ∈ app, b.time ≤ tl)
    (s1 : RandomDirectionGraph α) (hstep : updateValue s value t t = some s1) :
    ∃ (m1 n : ℕ) (p : Point α),
      p.time = t ∧ p.value = value ∧ m1 ≤ m ∧
      (app ++ [p]).Pairwise (fun a b => a.time ≤ b.time) ∧
      s1.data = seeds.take m1 ++ (app ++ [p]).drop n ∧
      (∀ b ∈ (app ++ [p]).drop n, b.time ≤ t) ∧
      s1.data = (s.data ++ [p]).filter (fun point => decide (point.time ≥ t - s.duration)) := by
  cases hl : s.data.getLast? with
  | none => simp [updateValue, hl] at hstep
  | some lastPoint =>
    rw [updateValue_eq s value t t lastPoint hl] at hstep
    have h1 := (Option.some.inj hstep).symm
    subst h1
    have hpw : (app ++
        [({ x := max 0 (min s.width (lastPoint.x + s.currentDirection.x * (value / 50))),
            y := max 0 (min s.height (lastPoint.y + s.currentDirection.y * (value / 50))),
            value := value, time := t } : Point α)]).Pairwise
        (fun a b => a.time ≤ b.time) := by
      rw [List.pairwise_append]
      refine ⟨happ, List.pairwise_singleton _ _, fun a ha b hb => ?_⟩
      rw [List.mem_singleton.mp hb]
      exact le_trans (hle a ha) ht
    obtain ⟨m0, hm0⟩ := filter_newest_first (t - s.duration) (seeds.take m) hseeds.take
    obtain ⟨n, hn⟩ := filter_oldest_first (t - s.duration) _ hpw
    refine ⟨min m0 m, n, _, rfl, rfl, min_le_right _ _, hpw, ?_, ?_, rfl⟩
    · show List.filter _ (s.data ++ _) = _
      rw [hdata, List.append_assoc, List.filter_append, hm0, hn, List.take_take]
    · intro b hb
      rcases List.mem_append.mp (List.mem_of_mem_drop hb) with hb | hb
      · exact le_trans (hle b hb) ht
      · rw [List.mem_singleton.mp hb]

/-- A sequence of calls at non-decreasing clock readings, none earlier than tl,
runs to its end and keeps the shape of the buffer. -/
theorem updateValues_shape (seeds : List (Point α))
    (hseeds : seeds.Pairwise (fun a b => b.time ≤ a.time)) (calls : List (α × α)) :
    ∀ (s : RandomDirectionGraph α) (tl : α),
      (∀ a ∈ seeds, a.time ≤ tl) → s.data ≠ [] → 0 ≤ s.duration → TrailInv seeds tl s →
      List.Chain (fun a b => a ≤ b) tl (calls.map Prod.snd) →
      ∃ s1 : RandomDirectionGraph α,
        updateValues s calls = some s1 ∧
        TrailInv seeds ((calls.map Prod.snd).getLastD tl) s1 ∧
        (∀ a ∈ seeds, a.time ≤ (calls.map Prod.snd).getLastD tl) ∧
        s1.data ≠ [] ∧ s1.duration = s.duration := by
  induction calls with
  | nil =>
    intro s tl hle hne _ hinv _
    exact ⟨s, rfl, hinv, hle, hne, rfl⟩
  | cons call rest ih =>
    intro s tl hle hne hd hinv hchain
    rw [List.map_cons, List.chain_cons] at hchain
    obtain ⟨s1, q, hstep, hdur, _, hq, _, _⟩ := updateValue_single_clock s call.1 call.2 hne hd
    obtain ⟨m, app, hdata, happ, happle, hsa⟩ := hinv
    obtain ⟨m1, n, p, hpt, _, _, hpw, hdata1, hle1, _⟩ :=
      updateValue_shape seeds tl call.1 call.2 s m app hseeds hchain.1 hdata happ happle s1 hstep
    have hle2 : ∀ a ∈ seeds, a.time ≤ call.2 := fun a ha => le_trans (hle a ha) hchain.1
    have hinv1 : TrailInv seeds call.2 s1 := by
      refine ⟨m1, _, hdata1, hpw.sublist (List.drop_sublist _ _), hle1, fun a ha b hb => ?_⟩
      rcases List.mem_append.mp (List.mem_of_mem_drop hb) with hb | hb
      · exact hsa a ha b hb
      · rw [List.mem_singleton.mp hb, hpt]
        exact hle2 a ha
    have hne1 : s1.data ≠ [] := by
      intro hnil
      rw [hnil] at hq
      simp at hq
    obtain ⟨s2, hrun, hinv2, hle3, hne2, hdur2⟩ :=
      ih s1 call.2 hle2 hne1 (hdur ▸ hd) hinv1 hchain.2
    refine ⟨s2, ?_, ?_, ?_, hne2, hdur2.trans hdur⟩
    · simp only [updateValues, hstep, hrun]
    · rw [List.map_cons, List.getLastD_cons]
      exact hinv2
    · rw [List.map_cons, List.getLastD_cons]
      exact hle3

/-- C5, as the code has it. Construct an instance whose seeding loop sees the
clock advance by at most 50 ms per iteration and never beyond T, then make any
calls of updateValue at non-decreasing clock readings from T on, and one more
call at a reading t not earlier than the last. The 100 seed points are stored
newest first. All calls return. Before the last call the buffer is the first m
seed points followed by the appended points app; app followed by the new point p
is in chronological order and no seed point is newer than any of them. The
prune of the last call keeps the points with time >= t - duration, and what it
leaves is the first m1 <= m seed points followed by app ++ [p] without its first
n points: it cuts the seed part at its end and the appended part at its start. -/
theorem buffer_order (duration : α) (showControls : Bool) (innerWidth innerHeight : α)
    (handles : ℕ) (now r T : α) (clock : ℕ → α) (calls : List (α × α)) (value t : α)
    (hd : 0 ≤ duration)
    (hclock : ∀ i, clock (i + 1) ≤ clock i + 50) (hT : ∀ i, clock i ≤ T)
    (hcalls : List.Chain (fun a b => a ≤ b) T (calls.map Prod.snd))
    (ht : (calls.map Prod.snd).getLastD T ≤ t) :
    ∃ (s s1 : RandomDirectionGraph α) (m m1 n : ℕ) (app : List (Point α)) (p : Point α),
      (construct duration showControls innerWidth innerHeight handles now r clock).data.Pairwise
        (fun a b => b.time ≤ a.time) ∧
      updateValues (construct duration showControls innerWidth innerHeight handles now r clock)
        calls = some s ∧
      s.data =
        (construct duration showControls innerWidth innerHeight handles now r clock).data.take m
          ++ app ∧
      updateValue s value t t = some s1 ∧
      p.time = t ∧ p.value = value ∧
      (app ++ [p]).Pairwise (fun a b => a.time ≤ b.time) ∧
      (∀ a ∈ (construct duration showControls innerWidth innerHeight handles now r clock).data,
        ∀ b ∈ app ++ [p], a.time ≤ b.time) ∧
      s1.data = (s.data ++ [p]).filter (fun point => decide (point.time ≥ t - duration)) ∧
      m1 ≤ m ∧
      s1.data =
        (construct duration showControls innerWidth innerHeight handles now r clock).data.take m1
          ++ (app ++ [p]).drop n := by
  have hseeds := seeds_newest_first duration showControls innerWidth innerHeight handles now r
    clock hclock
  obtain ⟨hdata0, _, _, hdur0, _, _⟩ :=
    construct_core duration showControls innerWidth innerHeight handles now r clock
  have hseedle : ∀ a ∈
      (construct duration showControls innerWidth innerHeight handles now r clock).data,
      a.time ≤ T := by
    intro a ha
    rw [hdata0] at ha
    obtain ⟨i, _, rfl⟩ := List.mem_map.mp ha
    have h1 := hT i
    have h2 : (0 : α) ≤ (i : α) := Nat.cast_nonneg i
    show clock i - (i : α) * 50 ≤ T
    linarith
  have hne0 :
      (construct duration showControls innerWidth innerHeight handles now r clock).data ≠ [] := by
    rw [hdata0]
    simp
  clear hdata0
  generalize construct duration showControls innerWidth innerHeight handles now r clock = s0
    at hseeds hdur0 hseedle hne0
  have hinv0 : TrailInv s0.data T s0 :=
    ⟨s0.data.length, [], by rw [List.take_length, List.append_nil], List.Pairwise.nil,
      fun b hb => absurd hb (List.not_mem_nil b), fun _ _ b hb => absurd hb (List.not_mem_nil b)⟩
  obtain ⟨s, hrun, ⟨m, app, hdata, happ, happle, hsa⟩, hle, hne, hdur⟩ :=
    updateValues_shape s0.data hseeds calls s0 T hseedle hne0 (hdur0 ▸ hd) hinv0 hcalls
  obtain ⟨s1, _, hstep, _, _, _, _, _⟩ :=
    updateValue_single_clock s value t hne (by rw [hdur, hdur0]; exact hd)
  obtain ⟨m1, n, p, hpt, hpv, hm1, hpw, hdata1, _, hfilter⟩ :=
    updateValue_shape s0.data _ value t s m app hseeds ht hdata happ happle s1 hstep
  rw [hdur, hdur0] at hfilter
  refine ⟨s, s1, m, m1, n, app, p, hseeds, hrun, hdata, hstep, hpt, hpv, hpw, ?_, hfilter, hm1,
    hdata1⟩
  intro a ha b hb
  rcases List.mem_append.mp hb with hb | hb
  · exact hsa a ha b hb
  · rw [List.mem_singleton.mp hb, hpt]
    exact le_trans (hle a ha) ht

/-- C5 at an instance constructed at clock reading 0 with the default window:
calls at 10 and 6000, then a call at 12000. -/
theorem buffer_order_witness :
    ∃ (s s1 : RandomDirectionGraph ℚ) (m m1 n : ℕ) (app : List (Point ℚ)) (p : Point ℚ),
      (construct (5000 : ℚ) false 800 600 0 0 (1 / 2) (fun _ => 0)).data.Pairwise
        (fun a b => b.time ≤ a.time) ∧
      updateValues (construct (5000 : ℚ) false 800 600 0 0 (1 / 2) (fun _ => 0))
        [(50, 10), (50, 6000)] = some s ∧
      s.data = (construct (5000 : ℚ) false 800 600 0 0 (1 / 2) (fun _ => 0)).data.take m ++ app ∧
      updateValue s 50 12000 12000 = some s1 ∧
      p.time = 12000 ∧ p.value = 50 ∧
      (app ++ [p]).Pairwise (fun a b => a.time ≤ b.time) ∧
      (∀ a ∈ (construct (5000 : ℚ) false 800 600 0 0 (1 / 2) (fun _ => 0)).data,
        ∀ b ∈ app ++ [p], a.time ≤ b.time) ∧
      s1.data = (s.data ++ [p]).filter (fun point => decide (point.time ≥ 12000 - 5000)) ∧
      m1 ≤ m ∧
      s1.data = (construct (5000 : ℚ) false 800 600 0 0 (1 / 2) (fun _ => 0)).data.take m1 ++
        (app ++ [p]).drop n :=
  buffer_order (5000 : ℚ) false 800 600 0 0 (1 / 2) 0 (fun _ => 0) [(50, 10), (50, 6000)]
    50 12000 (by norm_num) (fun _ => by norm_num) (fun _ => le_refl _) (by norm_num)
    (by norm_num)

/-- C5 fails on the constructed instance. Constructed at clock reading 0, the
buffer starts with a point of time 0 followed by a point of time -50, so it is
not in chronological order. A call updateValue(50) at clock reading 100 then
prunes the seed point at index 99 (time -4950 < 100 - 5000) and keeps the 99
points before it: what is left is no suffix of the buffer, so the removed point
is not a prefix of it. -/
theorem chronological_counterexample :
    ¬ Chronological (construct (5000 : ℚ) false 800 600 0 0 (1 / 2) (fun _ => 0)).data ∧
    ∃ s1 : RandomDirectionGraph ℚ,
      updateValue (construct (5000 : ℚ) false 800 600 0 0 (1 / 2) (fun _ => 0)) 50 100 100 =
        some s1 ∧
      s1.data =
        (construct (5000 : ℚ) false 800 600 0 0 (1 / 2) (fun _ => 0)).data.dropLast ++
          [{ x := 401, y := 300, value := 50, time := 100 }] ∧
      ∀ k : ℕ, s1.data ≠
        List.drop k ((construct (5000 : ℚ) false 800 600 0 0 (1 / 2) (fun _ => 0)).data ++
          [{ x := 401, y := 300, value := 50, time := 100 }]) := by
  obtain ⟨hdata, hw, hh, hd, _, _⟩ :=
    construct_core (5000 : ℚ) false 800 600 0 0 (1 / 2) (fun _ => 0)
  have hdir := construct_currentDirection (5000 : ℚ) false 800 600 0 0 (1 / 2) (fun _ => 0)
  generalize construct (5000 : ℚ) false 800 600 0 0 (1 / 2) (fun _ => 0) = s0
    at hdata hw hh hd hdir
  have hx : s0.currentDirection.x = 1 := by rw [hdir]
  have hy : s0.currentDirection.y = 0 := by rw [hdir]
  have hsplit : s0.data =
      List.map (fun i : ℕ => ({ x := 800 / 2, y := 600 / 2, value := 50,
                                time := 0 - (i : ℚ) * 50 } : Point ℚ)) (List.range 99) ++
        [{ x := 800 / 2, y := 600 / 2, value := 50, time := 0 - ((99 : ℕ) : ℚ) * 50 }] := by
    rw [hdata, List.range_succ, List.map_append, List.map_singleton]
  have h0 : s0.data[0]? =
      some { x := 800 / 2, y := 600 / 2, value := 50, time := 0 - ((0 : ℕ) : ℚ) * 50 } := by
    rw [hdata, List.getElem?_map, List.getElem?_range (by norm_num)]
    rfl
  have h1 : s0.data[1]? =
      some { x := 800 / 2, y := 600 / 2, value := 50, time := 0 - ((1 : ℕ) : ℚ) * 50 } := by
    rw [hdata, List.getElem?_map, List.getElem?_range (by norm_num)]
    rfl
  constructor
  · intro hchron
    have h := hchron 0 1 _ _ (by norm_num) h0 h1
    norm_num at h
  · have hlast : s0.data.getLast? =
        some { x := 800 / 2, y := 600 / 2, value := 50, time := 0 - ((99 : ℕ) : ℚ) * 50 } := by
      rw [hsplit, List.getLast?_concat]
    have hstep := updateValue_eq s0 50 100 100 _ hlast
    have hkeep : (s0.data ++
          [({ x := max 0 (min s0.width (800 / 2 + s0.currentDirection.x * (50 / 50))),
              y := max 0 (min s0.height (600 / 2 + s0.currentDirection.y * (50 / 50))),
              value := 50, time := 100 } : Point ℚ)]).filter
          (fun point => decide (point.time ≥ 100 - s0.duration)) =
        s0.data.dropLast ++ [{ x := 401, y := 300, value := 50, time := 100 }] := by
      rw [hsplit, List.dropLast_concat, List.filter_append, List.filter_append,
        List.filter_eq_self.mpr, List.filter_cons_of_neg, List.filter_nil, List.append_nil,
        List.filter_cons_of_pos, List.filter_nil, hx, hy, hw, hh]
      · norm_num
      · rw [hd]; norm_num
      · rw [hd]; norm_num
      · intro a ha
        obtain ⟨i, hi, rfl⟩ := List.mem_map.mp ha
        have hi2 : (i : ℚ) ≤ 98 := by
          have := List.mem_range.mp hi
          exact_mod_cast (by omega : i ≤ 98)
        rw [hd, decide_eq_true_eq]
        show (100 : ℚ) - 5000 ≤ 0 - (i : ℚ) * 50
        linarith
    refine ⟨_, hstep, hkeep, ?_⟩
    intro k heq
    have heq2 : s0.data.dropLast ++ [({ x := 401, y := 300, value := 50, time := 100 } : Point ℚ)]
        = List.drop k (s0.data ++ [{ x := 401, y := 300, value := 50, time := 100 }]) :=
      hkeep.symm.trans heq
    have hlen0 : s0.data.length = 100 := by rw [hdata]; simp
    have hlen := congrArg List.length heq2
    simp only [List.length_append, List.length_dropLast, List.length_drop, hlen0,
      List.length_singleton] at hlen
    have hk : k = 1 := by omega
    subst hk
    have hhead := congrArg (fun l => l[0]?) heq2
    simp only [List.getElem?_drop] at hhead
    rw [List.getElem?_append_left (by simp [hlen0]),
      List.getElem?_append_left (by simp [hlen0]), h1, hsplit, List.dropLast_concat,
      List.getElem?_map, List.getElem?_range (by norm_num)] at hhead
    have ht := congrArg (fun o => o.map Point.time) hhead
    norm_num at ht

/-! ## Teardown -/

/-- The destroy method written as one record update. -/
theorem destroy_eq (s : RandomDirectionGraph α) :
    destroy s =
      { s with
        frameRequests :=
          match s.animationId with
          | some h => if h ≠ 0 then s.frameRequests.filter (fun k => decide (k ≠ h))
                      else s.frameRequests
          | none => s.frameRequests
        canvasAttached := false
        controlsAttached := if s.showControls then false else s.controlsAttached } := by
  obtain ⟨_, sc, _, _, _, _, _, _, aid, _, _, _, _, _, _⟩ := s
  rcases aid with _ | h
  · cases sc <;> rfl
  · by_cases h0 : h ≠ 0
    · cases sc <;> simp only [destroy, if_pos h0] <;> rfl
    · cases sc <;> simp only [destroy, if_neg h0] <;> rfl

/-- What a frame does to the scheduling fields and to the controls. -/
theorem animate_frames (s : RandomDirectionGraph α) :
    (animate s).animationId = some (s.handles + 1) ∧
    (animate s).frameRequests = (s.handles + 1) :: s.frameRequests ∧
    (animate s).showControls = s.showControls ∧
    (animate s).controlsAttached = s.controlsAttached := by
  unfold animate draw
  split <;> exact ⟨rfl, rfl, rfl, rfl⟩

/-- After destroy no frame callback is left with the host, in a state where the
host held none or only the one stored in animationId. -/
theorem destroy_frameRequests (s : RandomDirectionGraph α)
    (hs : s.frameRequests = [] ∨
      ∃ h : ℕ, h ≠ 0 ∧ s.animationId = some h ∧ s.frameRequests = [h]) :
    (destroy s).frameRequests = [] := by
  rw [destroy_eq]
  show (match s.animationId with
    | some h => if h ≠ 0 then s.frameRequests.filter (fun k => decide (k ≠ h))
                else s.frameRequests
    | none => s.frameRequests) = []
  rcases hs with hnil | ⟨h0, hne, hid, hone⟩
  · rw [hnil]
    rcases s.animationId with _ | h
    · rfl
    · dsimp only
      split <;> rfl
  · rw [hid, hone]
    simp [hne]

/-- In every reachable state the host holds no frame callback or exactly the one
whose non-zero handle is stored in animationId, and controls that were never
created are not attached. -/
theorem reachable_frames (M : JSMath α) (s : RandomDirectionGraph α) (hr : Reachable M s) :
    (s.frameRequests = [] ∨
      ∃ h : ℕ, h ≠ 0 ∧ s.animationId = some h ∧ s.frameRequests = [h]) ∧
    (s.showControls = false → s.controlsAttached = false) := by
  induction hr with
  | construct duration showControls innerWidth innerHeight handles now r clock =>
    refine ⟨Or.inr ⟨handles + 1, Nat.succ_ne_zero _, ?_, ?_⟩, ?_⟩
    · unfold construct init animate draw
      cases showControls <;>
        simp [createCanvas, resizeCanvas, createControls, initializeData, apply_ite]
    · unfold construct init animate draw
      cases showControls <;>
        simp [createCanvas, resizeCanvas, createControls, initializeData, apply_ite]
    · unfold construct init animate draw
      cases showControls <;>
        simp [createCanvas, resizeCanvas, createControls, initializeData, apply_ite]
  | @changeDirection s0 now r1 r2 _ ih =>
    unfold RandomGraph.changeDirection
    split
    · exact ih
    · exact ih
  | @updateValue s0 s1 value tPush tCut _ hstep ih =>
    cases hl : s0.data.getLast? with
    | none => simp [RandomGraph.updateValue, hl] at hstep
    | some lastPoint =>
      rw [updateValue_eq s0 value tPush tCut lastPoint hl] at hstep
      have h1 := (Option.some.inj hstep).symm
      subst h1
      exact ih
  | resizeCanvas innerWidth innerHeight _ ih => exact ih
  | @frameTick s0 h _ ih =>
    unfold RandomGraph.frameTick
    split
    · rename_i hmem
      have hfilter : s0.frameRequests.filter (fun k => decide (k ≠ h)) = [] := by
        rcases ih.1 with hnil | ⟨h0, _, _, hone⟩
        · rw [hnil] at hmem
          exact absurd hmem (List.not_mem_nil h)
        · rw [hone] at hmem ⊢
          rw [List.mem_singleton.mp hmem]
          simp
      obtain ⟨hid, hfr, hsc, hca⟩ := animate_frames
        { s0 with frameRequests := s0.frameRequests.filter (fun k => decide (k ≠ h)) }
      refine ⟨Or.inr ⟨s0.handles + 1, Nat.succ_ne_zero _, hid, ?_⟩, ?_⟩
      · rw [hfr]
        show (s0.handles + 1) :: s0.frameRequests.filter (fun k => decide (k ≠ h)) = _
        rw [hfilter]
      · rw [hsc, hca]
        exact ih.2
    · exact ih
  | @destroy s0 _ ih =>
    refine ⟨Or.inl (destroy_frameRequests s0 ih.1), ?_⟩
    intro hsc
    rw [destroy_eq] at hsc ⊢
    show (if s0.showControls then false else s0.controlsAttached) = false
    have hsc0 : s0.showControls = false := hsc
    rw [hsc0]
    exact ih.2 hsc0

/-- C10, as the code has it. In every reachable state, destroy leaves no frame
callback with the host, so no frame runs afterwards, and detaches the canvas and
the controls; it leaves the buffer, the heading state and the hue phase as they
were. The operations are not guarded: on a destroyed instance updateValue,
changeDirection and draw do what they do on a live one. -/
theorem destroy_effect (M : JSMath α) (s : RandomDirectionGraph α) (hr : Reachable M s) :
    (destroy s).frameRequests = [] ∧
    (∀ k : ℕ, frameTick (destroy s) k = destroy s) ∧
    (destroy s).canvasAttached = false ∧
    (destroy s).controlsAttached = false ∧
    (destroy s).data = s.data ∧
    (destroy s).currentDirection = s.currentDirection ∧
    (destroy s).lastDirectionChange = s.lastDirectionChange ∧
    (destroy s).directionChangeInterval = s.directionChangeInterval ∧
    (destroy s).hueShift = s.hueShift ∧
    (∀ value tPush tCut : α,
      updateValue (destroy s) value tPush tCut =
        (updateValue s value tPush tCut).map destroy) ∧
    (∀ now r1 r2 : α,
      changeDirection M (destroy s) now r1 r2 = destroy (changeDirection M s now r1 r2)) ∧
    draw (destroy s) = destroy (draw s) := by
  obtain ⟨hframes, hcontrols⟩ := reachable_frames M s hr
  have hnone := destroy_frameRequests s hframes
  refine ⟨hnone, ?_, ?_, ?_, ?_, ?_, ?_, ?_, ?_, ?_, ?_, ?_⟩
  · intro k
    unfold frameTick
    rw [hnone, if_neg (List.not_mem_nil k)]
  · rw [destroy_eq]
  · rw [destroy_eq]
    show (if s.showControls then false else s.controlsAttached) = false
    cases hsc : s.showControls
    · exact hcontrols hsc
    · rfl
  · rw [destroy_eq]
  · rw [destroy_eq]
  · rw [destroy_eq]
  · rw [destroy_eq]
  · rw [destroy_eq]
  · intro value tPush tCut
    cases hl : s.data.getLast? with
    | none =>
      have h1 : (destroy s).data.getLast? = none := by rw [destroy_eq]; exact hl
      simp only [updateValue, hl, h1, Option.map_none']
    | some lastPoint =>
      have h1 : (destroy s).data.getLast? = some lastPoint := by rw [destroy_eq]; exact hl
      rw [updateValue_eq _ value tPush tCut lastPoint h1,
        updateValue_eq _ value tPush tCut lastPoint hl, Option.map_some', destroy_eq, destroy_eq]
  · intro now r1 r2
    simp only [destroy_eq, changeDirection]
    split <;> rfl
  · simp only [destroy_eq, draw]
    split <;> rfl

/-- The scheduling fields and the hue phase of a constructed instance: one frame
has been drawn, one frame callback and one interval timer are with the host. -/
theorem construct_host (duration : α) (showControls : Bool)
    (innerWidth innerHeight : α) (handles : ℕ) (now r : α) (clock : ℕ → α) :
    (construct duration showControls innerWidth innerHeight handles now r clock).hueShift = 1 ∧
    (construct duration showControls innerWidth innerHeight handles now r clock).animationId =
      some (handles + 1) ∧
    (construct duration showControls innerWidth innerHeight handles now r clock).frameRequests =
      [handles + 1] ∧
    (construct duration showControls innerWidth innerHeight handles now r clock).intervalTimers =
      [handles + 1 + 1] := by
  unfold construct init animate draw
  cases showControls <;>
    simp [createCanvas, resizeCanvas, createControls, initializeData, apply_ite]

/-- C10 at the instance constructed at clock reading 0 on a 800 x 600 viewport. -/
theorem destroy_effect_witness :
    (destroy (construct (5000 : ℝ) true 800 600 0 0 (1 / 2) (fun _ => 0))).frameRequests = [] :=
  (destroy_effect { PI := Real.pi, cos := Real.cos, sin := Real.sin }
    (construct (5000 : ℝ) true 800 600 0 0 (1 / 2) (fun _ => 0))
    (Reachable.construct 5000 true 800 600 0 0 (1 / 2) (fun _ => 0))).1

/-- C10 fails on the instance constructed at clock reading 0 on a 800 x 600
viewport and then destroyed. The host still holds the interval timer, and when
it fires 5000 ms later the heading state is re-rolled (lastDirectionChange goes
from 0 to 5000). A call updateValue(50) appends a point (100 points before, 101
after) and a call of draw advances the hue phase from 1 to 2. -/
theorem destroy_counterexample :
    (destroy (construct (5000 : ℝ) true 800 600 0 0 (1 / 2) (fun _ => 0))).intervalTimers =
      [2] ∧
    (destroy (construct (5000 : ℝ) true 800 600 0 0 (1 / 2)
      (fun _ => 0))).lastDirectionChange = 0 ∧
    (timerTick { PI := Real.pi, cos := Real.cos, sin := Real.sin }
      (destroy (construct (5000 : ℝ) true 800 600 0 0 (1 / 2) (fun _ => 0)))
      2 5000 (1 / 4) (1 / 2)).lastDirectionChange = 5000 ∧
    (destroy (construct (5000 : ℝ) true 800 600 0 0 (1 / 2) (fun _ => 0))).data.length = 100 ∧
    (∃ s1 : RandomDirectionGraph ℝ,
      updateValue (destroy (construct (5000 : ℝ) true 800 600 0 0 (1 / 2) (fun _ => 0)))
        50 0 0 = some s1 ∧
      s1.data.length = 101) ∧
    (destroy (construct (5000 : ℝ) true 800 600 0 0 (1 / 2) (fun _ => 0))).hueShift = 1 ∧
    (draw (destroy (construct (5000 : ℝ) true 800 600 0 0 (1 / 2) (fun _ => 0)))).hueShift =
      2 := by
  obtain ⟨hdata, hw, hh, hd, hlc, hint⟩ :=
    construct_core (5000 : ℝ) true 800 600 0 0 (1 / 2) (fun _ => 0)
  obtain ⟨hhue, _, _, htimers⟩ :=
    construct_host (5000 : ℝ) true 800 600 0 0 (1 / 2) (fun _ => 0)
  have hdir := construct_currentDirection (5000 : ℝ) true 800 600 0 0 (1 / 2) (fun _ => 0)
  generalize construct (5000 : ℝ) true 800 600 0 0 (1 / 2) (fun _ => 0) = s0
    at hdata hw hh hd hlc hint hhue htimers hdir
  have hlen : s0.data.length = 100 := by rw [hdata]; simp
  have hddata : (destroy s0).data = s0.data := by rw [destroy_eq]
  have hdhue : (destroy s0).hueShift = 1 := by rw [destroy_eq]; exact hhue
  have hdlc : (destroy s0).lastDirectionChange = 0 := by rw [destroy_eq]; exact hlc
  have hdint : (destroy s0).directionChangeInterval = 1000 + 1 / 2 * 2000 := by
    rw [destroy_eq]; exact hint
  have hdtimers : (destroy s0).intervalTimers = [2] := by rw [destroy_eq]; exact htimers
  have hdduration : (destroy s0).duration = 5000 := by rw [destroy_eq]; exact hd
  refine ⟨hdtimers, hdlc, ?_, by rw [hddata, hlen], ?_, hdhue, ?_⟩
  · have hfire : (5000 : ℝ) - (destroy s0).lastDirectionChange >
        (destroy s0).directionChangeInterval := by
      rw [hdlc, hdint]; norm_num
    simp only [timerTick, hdtimers, List.mem_singleton, if_true, changeDirection, if_pos hfire]
  · have hne : (destroy s0).data ≠ [] := by
      intro hnil
      rw [← hddata, hnil] at hlen
      simp at hlen
    obtain ⟨lastPoint, hlast⟩ : ∃ lastPoint, (destroy s0).data.getLast? = some lastPoint := by
      cases hl : (destroy s0).data.getLast? with
      | none => exact absurd (List.getLast?_eq_none_iff.mp hl) hne
      | some lastPoint => exact ⟨lastPoint, rfl⟩
    refine ⟨_, updateValue_eq (destroy s0) 50 0 0 lastPoint hlast, ?_⟩
    show (List.filter _ ((destroy s0).data ++ _)).length = 101
    rw [List.filter_eq_self.mpr, List.length_append, hddata, hlen, List.length_singleton]
    intro q hq
    rw [decide_eq_true_eq, hdduration]
    rcases List.mem_append.mp hq with hq | hq
    · rw [hddata, hdata] at hq
      obtain ⟨i, hi, rfl⟩ := List.mem_map.mp hq
      have hi2 : (i : ℝ) ≤ 99 := by
        have := List.mem_range.mp hi
        exact_mod_cast (by omega : i ≤ 99)
      show (0 : ℝ) - (i : ℝ) * 50 ≥ 0 - 5000
      linarith
    · rw [List.mem_singleton.mp hq]
      show (0 : ℝ) ≥ 0 - 5000
      norm_num
  · have hge : ¬ (destroy s0).data.length < 2 := by rw [hddata, hlen]; norm_num
    simp only [draw, if_neg hge, hdhue]

end RandomGraph
